import Mathlib

/-!
# automater: the `monitor` subcommand

A shallow embedding of `cmd/monitor/monitor.go` and `main.go`.

* Machine integers are `Nat`/`Int` with explicit wrap-around (`wrapInt64`,
  `toInt32`).
* A run-time panic of the Go code is a `none` result (`formatBytes`) or a
  final `Event.panic` in the trace.
* The external collaborators (HTTP client, process table, TCP dialer, ...) are
  the fields of `World`; every call a check makes is recorded in its trace.
-/

namespace Automater

/-! ## `formatBytes` -/

/-- The constant `unit` of `formatBytes`. -/
def unit : Nat := 1024

/-- Two's-complement wrap of an integer into `int64`. -/
def wrapInt64 (x : Int) : Int := (x + 2 ^ 63) % 2 ^ 64 - 2 ^ 63

/-- Whether an integer lies outside the range of `int64`. -/
def outsideInt64 (x : Int) : Bool := decide (x < -(2 ^ 63)) || decide (2 ^ 63 ≤ x)

/-- The loop `for n := b / unit; n >= unit; n /= unit { div *= unit; exp++ }`
of `formatBytes`, started in the state `(n, div, exp)`.  `fuel` bounds the
number of iterations; `none` means the fuel ran out before the loop ended.
`div` is an `int64`, so the product wraps; the third component of the result
is a ghost flag recording whether some product `div * unit` left the `int64`
range (`ovf` is the flag so far). -/
def unitLoop : Nat → Nat → Int → Nat → Bool → Option (Int × Nat × Bool)
  | 0, _, _, _, _ => none
  | fuel + 1, n, div, exp, ovf =>
    if n ≥ unit then
      unitLoop fuel (n / unit) (wrapInt64 (div * unit)) (exp + 1) (ovf || outsideInt64 (div * unit))
    else some (div, exp, ovf)

/-- Round `num / den` to the nearest integer, ties to the even one. -/
def roundHalfEven (num den : Nat) : Nat :=
  let q := num / den
  let r := num % den
  if 2 * r < den then q
  else if den < 2 * r then q + 1
  else if q % 2 = 0 then q else q + 1

/-- The spacing of the `float64` values around `m`: `1` below `2^53`, doubling
with every further bit.  `fuel` bounds the number of halvings (64 covers every
`uint64`). -/
def ulpOf : Nat → Nat → Nat
  | 0, _ => 1
  | fuel + 1, m => if m < 2 ^ 53 then 1 else 2 * ulpOf fuel (m / 2)

/-- The conversion `float64(b)` of a `uint64`: the nearest value with a 53-bit
significand, ties to the even significand.  The result is again an integer
(it is `b` itself below `2^53`). -/
def float64OfNat (b : Nat) : Nat :=
  let ulp := ulpOf 64 b
  roundHalfEven b ulp * ulp

/-- The verb `%.1f` applied to the quotient `x / y` of two floats with integer
values `x` and `y`, `y` a power of two (so that the IEEE quotient is exact and
only the decimal rendering rounds): the exact value is rounded to the nearest
tenth, ties to even, and written with one digit after the point. -/
def fmtF1 (x : Nat) (y : Int) : String :=
  let d := roundHalfEven (10 * x) y.toNat
  toString (d / 10) ++ "." ++ toString (d % 10)

/-- Indexing `"KMGTPE"[exp]`; `none` is the index-out-of-range panic. -/
def unitLetter (exp : Nat) : Option Char := "KMGTPE".toList[exp]?

/-- The function `formatBytes(b uint64) string`.  `none` is a run-time panic
(or a loop still running after 64 iterations, which no `uint64` reaches).
Go evaluates the quotient before the index, but an index out of range discards
it; where the index is in bounds `div` is a power of two, as `fmtF1` asks. -/
def formatBytes (b : Nat) : Option String :=
  if b < unit then some (toString b ++ " B")
  else
    match unitLoop 64 (b / unit) (unit : Int) 0 false with
    | none => none
    | some (div, exp, _) =>
      match unitLetter exp with
      | none => none
      | some c => some (fmtF1 (float64OfNat b) div ++ " " ++ String.singleton c ++ "B")

/-- The tenths `d` is a nearest one-decimal value of `x / y`:
`|10 * x - d * y| ≤ y / 2`. -/
def NearestTenth (x y d : Nat) : Prop :=
  2 * (10 * x) ≤ 2 * (d * y) + y ∧ 2 * (d * y) ≤ 2 * (10 * x) + y

/-- The string the specification describes for the byte count `b`, where `x` is
the number whose quotient by the unit is displayed (`x = b` in the
specification): below 1024 the decimal numeral of `b` and `" B"`; from 1024 on
a nearest tenth of `x / 1024^(e+1)` with one decimal digit, a space, the `e`-th
letter of `"KMGTPE"` and `"B"`, for the `e` with `1024^(e+1) ≤ b < 1024^(e+2)`. -/
def FormatSpec (x b : Nat) (s : String) : Prop :=
  if b < 1024 then s = toString b ++ " B"
  else ∃ e d c, 1024 ^ (e + 1) ≤ b ∧ b < 1024 ^ (e + 2) ∧ "KMGTPE".toList[e]? = some c ∧
    NearestTenth x (1024 ^ (e + 1)) d ∧
    s = toString (d / 10) ++ "." ++ toString (d % 10) ++ " " ++ String.singleton c ++ "B"

/-! ### Reading a formatted byte count back

The repository has no parser; the round trip of the specification is stated
against the one its words describe. -/

/-- The value of a run of decimal digits. -/
def digitsValue (cs : List Char) : Nat :=
  cs.foldl (fun acc c => 10 * acc + (c.toNat - 48)) 0

/-- The factor of a unit suffix: 1 for `"B"`, `1024^(e+1)` for the `e`-th
letter of `"KMGTPE"` followed by `"B"`. -/
def unitMultiplier : List Char → Option Nat
  | ['B'] => some 1
  | [c, 'B'] =>
    match "KMGTPE".toList.indexOf? c with
    | some e => some (1024 ^ (e + 1))
    | none => none
  | _ => none

/-- The parser the round-trip property of the specification describes (the
repository has none): it reads `<digits> <unit>` or `<digits>.<digits> <unit>`
and returns the decimal number times the factor of the unit. -/
def parseFormatted (s : String) : Option ℚ :=
  let cs := s.toList
  let whole := cs.takeWhile Char.isDigit
  match cs.dropWhile Char.isDigit with
  | ' ' :: u => (unitMultiplier u).map fun m => (digitsValue whole : ℚ) * m
  | '.' :: rest =>
    let frac := rest.takeWhile Char.isDigit
    match rest.dropWhile Char.isDigit with
    | ' ' :: u =>
      (unitMultiplier u).map fun m =>
        ((digitsValue whole : ℚ) + (digitsValue frac : ℚ) / 10 ^ frac.length) * m
    | _ => none
  | _ => none

/-! ## Collaborators and traces -/

/-- The six check strategies. -/
inductive Check
  | url | process | host | kubernetes | cpu | memory
  deriving DecidableEq, Repr

/-- A handle of the process table (`*process.Process`); `pid` is its `Pid`
field, an `int32`. -/
structure Process where
  pid : Int
  deriving DecidableEq, Repr

/-- What `http.Get` answers: the status code and the status text. -/
structure Response where
  statusCode : Int
  status : String

/-- The fields of `mem.VirtualMemoryStat` that `checkMemory` reads.  The two
byte counts are `uint64`; the percentage, a float, is carried as its `%.2f`
rendering. -/
structure VirtualMemoryStat where
  usedPercent : String
  used : Fin (2 ^ 64)
  total : Fin (2 ^ 64)

/-- The external collaborators as they answer during one tick.  An error is
carried as its message (what `%v` prints). -/
structure World where
  /-- The call `http.Get(url)`. -/
  httpGet : String → Except String Response
  /-- The call `process.NewProcess(pid)`, on an `int32`. -/
  newProcess : Int → Except String Process
  /-- The call `process.Processes()`. -/
  processes : Except String (List Process)
  /-- The call `proc.Name()`; the code drops its error. -/
  procName : Process → String
  /-- The call `p.IsRunning()`. -/
  isRunning : Process → Except String Bool
  /-- The call `cpu.Percent(time.Second, false)`, each percentage as its `%.2f`
  rendering. -/
  cpuPercent : Except String (List String)
  /-- The call `mem.VirtualMemory()`. -/
  virtualMemory : Except String VirtualMemoryStat
  /-- Whether `net.DialTimeout("tcp", address, 2*time.Second)` succeeds. -/
  dialTimeout : String → Bool
  /-- The call `os.UserHomeDir()`. -/
  userHomeDir : Except String String
  /-- The call `filepath.Join(elems...)`. -/
  filepathJoin : List String → String
  /-- The call `clientcmd.BuildConfigFromFlags("", path)`; success gives the
  `Host` of the configuration. -/
  buildConfig : String → Except String String
  /-- The call `kubernetes.NewForConfig(config)`, by the host of `config`. -/
  newForConfig : String → Except String Unit
  /-- The namespace list query with `Limit: 1`, by the host of the cluster. -/
  listNamespaces : String → Except String Unit

/-- What a run does, in order: lines written to the log sink (the `log`
package, set to standard error), lines printed to standard output or to
standard error directly, the check
strategies the scheduler invokes, the calls to the collaborators, and a
run-time panic. -/
inductive Event
  | log (line : String)
  | stdout (line : String)
  | stderr (line : String)
  | invoke (c : Check)
  | httpGet (url : String)
  | closeBody
  | newProcess (pid : Int)
  | listProcesses
  | procName (p : Process)
  | isRunning (p : Process)
  | cpuPercent
  | virtualMemory
  | dial (address : String)
  | closeConn
  | userHomeDir
  | buildConfig (path : String)
  | newForConfig
  | listNamespaces
  | panic (msg : String)
  deriving DecidableEq, Repr

/-- Whether a trace ends the goroutine by a panic. -/
def panicked (t : List Event) : Bool :=
  t.any fun e => match e with
    | .panic _ => true
    | _ => false

/-- Sequencing of two statements: the second runs unless the first panicked. -/
def andThen (t u : List Event) : List Event :=
  if panicked t then t else t ++ u

/-- The check strategies a trace invokes, in order. -/
def invocations (t : List Event) : List Check :=
  t.filterMap fun e => match e with
    | .invoke c => some c
    | _ => none

/-- The lines a trace writes to the log sink, in order. -/
def logLines (t : List Event) : List String :=
  t.filterMap fun e => match e with
    | .log l => some l
    | _ => none

/-- A trace without a panic and without an invocation of a check strategy:
what the body of every check is. -/
def Quiet (t : List Event) : Prop := panicked t = false ∧ invocations t = []

/-! ## The check strategies -/

/-- The function `checkURL(url string)`. -/
def checkURL (w : World) (url : String) : List Event :=
  if url = "" then [.log "URL monitoring requires the --url flag to be set."]
  else
    match w.httpGet url with
    | .error err => [.httpGet url, .log ("Error checking URL " ++ url ++ ": " ++ err)]
    | .ok resp =>
      if 200 ≤ resp.statusCode ∧ resp.statusCode < 300 then
        [.httpGet url, .log ("URL " ++ url ++ " is reachable (Status: " ++ resp.status ++ ")"),
          .closeBody]
      else
        [.httpGet url, .log ("URL " ++ url ++ " returned status: " ++ resp.status), .closeBody]

/-- The conversion `int32(x)` of a platform `int`. -/
def toInt32 (x : Int) : Int := (x + 2 ^ 31) % 2 ^ 32 - 2 ^ 31

/-- The loop `for _, proc := range processes` of `checkProcess`: the calls to
`proc.Name()` it makes and the first process whose name is `name`. -/
def findByName (w : World) (name : String) : List Process → List Event × Option Process
  | [] => ([], none)
  | proc :: rest =>
    if w.procName proc = name then ([.procName proc], some proc)
    else
      let r := findByName w name rest
      (.procName proc :: r.1, r.2)

/-- The tail of `checkProcess`, from `p.IsRunning()` on. -/
def reportRunning (w : World) (pid : Int) (name : String) (p : Process) : List Event :=
  match w.isRunning p with
  | .error err =>
    [.isRunning p,
      .log ("Error checking status for process " ++ toString pid ++ "/" ++ name ++ ": " ++ err)]
  | .ok true =>
    [.isRunning p, .procName p,
      .log ("Process " ++ w.procName p ++ " (PID: " ++ toString p.pid ++ ") is running.")]
  | .ok false =>
    [.isRunning p, .log ("Process " ++ toString pid ++ "/" ++ name ++ " is not running.")]

/-- The function `checkProcess(pid int, name string)`. -/
def checkProcess (w : World) (pid : Int) (name : String) : List Event :=
  if pid ≠ 0 then
    match w.newProcess (toInt32 pid) with
    | .error err =>
      [.newProcess (toInt32 pid),
        .log ("Error finding process by PID " ++ toString pid ++ ": " ++ err)]
    | .ok p => .newProcess (toInt32 pid) :: reportRunning w pid name p
  else if name ≠ "" then
    match w.processes with
    | .error err => [.listProcesses, .log ("Error listing processes: " ++ err)]
    | .ok processes =>
      match findByName w name processes with
      | (calls, none) =>
        .listProcesses :: calls ++ [.log ("Process with name \x27" ++ name ++ "\x27 not found.")]
      | (calls, some p) => .listProcesses :: calls ++ reportRunning w pid name p
  else [.log "Process monitoring requires either --pid or --process-name flag."]

/-- The function `checkCPU()`. -/
def checkCPU (w : World) : List Event :=
  match w.cpuPercent with
  | .error err => [.cpuPercent, .log ("Error getting CPU usage: " ++ err)]
  | .ok [] => [.cpuPercent]
  | .ok (first :: _) => [.cpuPercent, .log ("CPU Usage: " ++ first ++ "%")]

/-- The function `checkMemory()`. -/
def checkMemory (w : World) : List Event :=
  match w.virtualMemory with
  | .error err => [.virtualMemory, .log ("Error getting memory usage: " ++ err)]
  | .ok vmStat =>
    match formatBytes vmStat.used.val, formatBytes vmStat.total.val with
    | some used, some total =>
      [.virtualMemory,
        .log ("Memory Usage: " ++ vmStat.usedPercent ++ "% (Used: " ++ used ++ " / Total: "
          ++ total ++ ")")]
    | _, _ => [.virtualMemory, .panic "index out of range"]

/-- The function `net.JoinHostPort` of the Go library: a host with a colon is
put in brackets. -/
def joinHostPort (host port : String) : String :=
  if host.toList.contains ':' then "[" ++ host ++ "]:" ++ port else host ++ ":" ++ port

/-- The verb `%v` on a `[]string`. -/
def fmtStrings (xs : List String) : String := "[" ++ " ".intercalate xs ++ "]"

/-- The loop `for _, port := range ports` of `checkHost`: the trace and the
final value of `reachable`. -/
def dialPorts (w : World) (hostAddress : String) : List String → List Event × Bool
  | [] => ([], false)
  | port :: rest =>
    let address := joinHostPort hostAddress port
    if w.dialTimeout address then
      ([.dial address, .closeConn,
        .log ("Host " ++ hostAddress ++ " is reachable (checked port " ++ port ++ ")")], true)
    else
      let r := dialPorts w hostAddress rest
      (.dial address :: r.1, r.2)

/-- The function `checkHost(hostAddress string)`. -/
def checkHost (w : World) (hostAddress : String) : List Event :=
  if hostAddress = "" then [.log "Host/IP monitoring requires the --host flag to be set."]
  else
    let ports := ["80", "443"]
    let r := dialPorts w hostAddress ports
    if r.2 then r.1
    else
      r.1 ++ [.log ("Host " ++ hostAddress ++ " appears unreachable (checked ports: "
        ++ fmtStrings ports ++ ")")]

/-- The head of `checkKubernetes`: the path of the configuration file. -/
def resolveConfigPath (w : World) (kubeconfig : String) : List Event × String :=
  if kubeconfig = "" then
    match w.userHomeDir with
    | .error err =>
      ([.userHomeDir, .log ("Error getting user home directory: " ++ err)],
        w.filepathJoin [".kube", "config"])
    | .ok home => ([.userHomeDir], w.filepathJoin [home, ".kube", "config"])
  else ([], kubeconfig)

/-- The function `checkKubernetes()`, on the global `kubeconfig`. -/
def checkKubernetes (w : World) (kubeconfig : String) : List Event :=
  let r := resolveConfigPath w kubeconfig
  let configPath := r.2
  match w.buildConfig configPath with
  | .error err =>
    r.1 ++ [.buildConfig configPath,
      .log ("Error building kubeconfig from " ++ configPath ++ ": " ++ err)]
  | .ok host =>
    match w.newForConfig host with
    | .error err =>
      r.1 ++ [.buildConfig configPath, .newForConfig,
        .log ("Error creating Kubernetes clientset: " ++ err)]
    | .ok _ =>
      match w.listNamespaces host with
      | .error err =>
        r.1 ++ [.buildConfig configPath, .newForConfig, .listNamespaces,
          .log ("Error connecting to Kubernetes cluster (" ++ host ++ "): " ++ err)]
      | .ok _ =>
        r.1 ++ [.buildConfig configPath, .newForConfig, .listNamespaces,
          .log ("Kubernetes cluster (" ++ host ++ ") is reachable.")]

/-! ## The scheduler -/

/-- The flag variables of the `monitor` command. `interval` and `processID`
are platform `int`s. -/
structure Config where
  service : String
  interval : Int
  logOutput : Bool
  targetURL : String
  processID : Int
  processName : String
  host : String
  kubeconfig : String

/-- The service kinds the `switch` of the loop knows. -/
def serviceKinds : List String := ["web", "process", "cpu", "memory", "ping", "k8s", "all"]

/-- The line the `default` case logs. -/
def unknownServiceLine (service : String) : String :=
  "Unknown service type: " ++ service
    ++ ". Supported types: web, process, cpu, memory, ping, k8s, all"

/-- A call of a check strategy from the loop: the invocation, then what the
check does. -/
def call (c : Check) (body : List Event) : List Event := .invoke c :: body

/-- The body of `for range ticker.C`, the `switch service`: the trace of one
tick, and whether the body executes `return`. -/
def tick (cfg : Config) (w : World) : List Event × Bool :=
  if cfg.service = "web" then (call .url (checkURL w cfg.targetURL), false)
  else if cfg.service = "process" then
    (call .process (checkProcess w cfg.processID cfg.processName), false)
  else if cfg.service = "cpu" then (call .cpu (checkCPU w), false)
  else if cfg.service = "memory" then (call .memory (checkMemory w), false)
  else if cfg.service = "ping" then (call .host (checkHost w cfg.host), false)
  else if cfg.service = "k8s" then (call .kubernetes (checkKubernetes w cfg.kubeconfig), false)
  else if cfg.service = "all" then
    (andThen [.log "--- Monitoring All ---"]
      (andThen (call .url (checkURL w cfg.targetURL))
      (andThen (call .process (checkProcess w cfg.processID cfg.processName))
      (andThen (call .host (checkHost w cfg.host))
      (andThen (call .kubernetes (checkKubernetes w cfg.kubeconfig))
      (andThen (call .cpu (checkCPU w))
      (andThen (call .memory (checkMemory w))
        [.log "----------------------"])))))), false)
  else ([.log (unknownServiceLine cfg.service)], true)

/-- How far a run got: it returned, it is still in the loop when the process
is ended from outside, or it panicked. -/
inductive Status
  | returned | running | panicked
  deriving DecidableEq, Repr

/-- The loop `for range ticker.C`, on the ticks delivered before the process
is ended from outside; each tick comes with the collaborators as they answer
then. -/
def loop (cfg : Config) : List World → List Event × Status
  | [] => ([], .running)
  | w :: ws =>
    match tick cfg w with
    | (t, true) => (t, .returned)
    | (t, false) =>
      if panicked t then (t, .panicked)
      else
        let r := loop cfg ws
        (t ++ r.1, r.2)

/-- The duration `time.Duration(interval) * time.Second`, an `int64` of
nanoseconds. -/
def tickerPeriod (interval : Int) : Int := wrapInt64 (wrapInt64 interval * 1000000000)

/-- The head of the `Run` function of `MonitorCmd`: the two start-up lines, or
in silent mode the notice on standard output. -/
def banner (cfg : Config) : List Event :=
  if cfg.logOutput then
    [.log ("Starting monitoring task: " ++ cfg.service),
      .log ("Check interval: " ++ toString cfg.interval ++ " seconds")]
  else [.stdout "Silent mode enabled. No logs will be printed."]

/-- The `Run` function of `MonitorCmd`.  `time.NewTicker` panics on a period
that is not positive; `ticker.Stop()` has no effect the trace records. -/
def Run (cfg : Config) (ticks : List World) : List Event × Status :=
  if tickerPeriod cfg.interval ≤ 0 then
    (banner cfg ++ [.panic "non-positive interval for NewTicker"], .panicked)
  else
    let r := loop cfg ticks
    (banner cfg ++ r.1, r.2)

/-- How a call that may not come back ended: it returned (with an error or
`nil`), it is still running when the process is ended from outside, or it
panicked. -/
inductive Outcome
  | returned (err : Option String)
  | running
  | panicked
  deriving DecidableEq, Repr

/-- The function `root.Execute()` when the `monitor` subcommand is selected and
its flags are parsed into `cfg`: the command has a `Run` without an error
result, so once `Run` returns the error is `nil`. -/
def Execute (cfg : Config) (ticks : List World) : List Event × Outcome :=
  match Run cfg ticks with
  | (t, .returned) => (t, .returned none)
  | (t, .running) => (t, .running)
  | (t, .panicked) => (t, .panicked)

/-- The function `main`: the trace and the exit status of the process, `none`
while it is still running.  A returned error is printed to standard error
and gives status 1; an unrecovered panic ends a Go process with status 2. -/
def main (cfg : Config) (ticks : List World) : List Event × Option Nat :=
  match Execute cfg ticks with
  | (t, .returned (some err)) => (t ++ [.stderr err], some 1)
  | (t, .returned none) => (t, some 0)
  | (t, .running) => (t, none)
  | (t, .panicked) => (t, some 2)

/-! ## What the specification says of a tick, and sample inputs -/

/-- The six check strategies in the order the specification gives for the
service kind `all`. -/
def allOrder : List Check := [.url, .process, .host, .kubernetes, .cpu, .memory]

/-- The trace the specification describes for one tick of the service kind
`all`: a delimiter line, the six checks in order, a delimiter line. -/
def allBatch (cfg : Config) (w : World) : List Event :=
  [.log "--- Monitoring All ---"]
    ++ call .url (checkURL w cfg.targetURL)
    ++ call .process (checkProcess w cfg.processID cfg.processName)
    ++ call .host (checkHost w cfg.host)
    ++ call .kubernetes (checkKubernetes w cfg.kubeconfig)
    ++ call .cpu (checkCPU w)
    ++ call .memory (checkMemory w)
    ++ [.log "----------------------"]

/-- Collaborators that all fail: nothing answers, no process exists. -/
def downWorld : World where
  httpGet := fun _ => .error "connection refused"
  newProcess := fun _ => .error "process does not exist"
  processes := .ok []
  procName := fun _ => ""
  isRunning := fun _ => .ok false
  cpuPercent := .error "not implemented yet"
  virtualMemory := .error "not implemented yet"
  dialTimeout := fun _ => false
  userHomeDir := .error "$HOME is not defined"
  filepathJoin := fun elems => "/".intercalate elems
  buildConfig := fun _ => .error "no such file or directory"
  newForConfig := fun _ => .ok ()
  listNamespaces := fun _ => .error "connection refused"

/-- A command line with only `--service` (and possibly `--log=false`) given:
the flags at their defaults otherwise. -/
def defaultConfig (service : String) (logOutput : Bool) : Config where
  service := service
  interval := 30
  logOutput := logOutput
  targetURL := ""
  processID := 0
  processName := ""
  host := ""
  kubeconfig := ""

/-! ## Theorems: `formatBytes` -/

theorem wrapInt64_of_inRange (x : Int) (h0 : 0 ≤ x) (h1 : x < 2 ^ 63) : wrapInt64 x = x := by
  unfold wrapInt64
  omega

theorem outsideInt64_of_inRange (x : Int) (h0 : 0 ≤ x) (h1 : x < 2 ^ 63) :
    outsideInt64 x = false := by
  unfold outsideInt64
  simp only [Bool.or_eq_false_iff, decide_eq_false_iff_not, not_lt, not_le]
  omega

/-- The loop invariant, run to the end: started at `n` with `1024^k ≤ n < 1024^(k+1)`
(or `n < 1024` when `k = 0`), the loop makes exactly `k` iterations, none of
them wraps, and it leaves `div * 1024^k` and `exp + k`. -/
theorem unitLoop_spec (k : Nat) : ∀ (fuel n : Nat) (div : Int) (exp : Nat) (ovf : Bool),
    k < fuel → n < 1024 ^ (k + 1) → (k = 0 ∨ 1024 ^ k ≤ n) → 0 < div →
    div * 1024 ^ k < 2 ^ 63 →
    unitLoop fuel n div exp ovf = some (div * 1024 ^ k, exp + k, ovf) := by
  induction k with
  | zero =>
    intro fuel n div exp ovf hf hn _ _ _
    obtain ⟨f, rfl⟩ : ∃ f, fuel = f + 1 := ⟨fuel - 1, by omega⟩
    have hlt : ¬ (n ≥ unit) := by simp only [unit]; omega
    simp [unitLoop, hlt]
  | succ k ih =>
    intro fuel n div exp ovf hf hn hk hdiv hfit
    obtain ⟨f, rfl⟩ : ∃ f, fuel = f + 1 := ⟨fuel - 1, by omega⟩
    have hlow : 1024 ^ (k + 1) ≤ n := by
      rcases hk with h | h
      · omega
      · exact h
    have hpos : 0 < 1024 ^ k := by positivity
    have hge : n ≥ unit := by
      simp only [unit]
      have : 1024 ^ (k + 1) = 1024 ^ k * 1024 := pow_succ 1024 k
      nlinarith
    have hn' : n / 1024 < 1024 ^ (k + 1) := by
      apply Nat.div_lt_of_lt_mul
      have : 1024 ^ (k + 1 + 1) = 1024 * 1024 ^ (k + 1) := by ring
      omega
    have hk' : k = 0 ∨ 1024 ^ k ≤ n / 1024 := by
      right
      apply (Nat.le_div_iff_mul_le (by norm_num)).mpr
      have : 1024 ^ (k + 1) = 1024 ^ k * 1024 := pow_succ 1024 k
      omega
    have hposI : (0 : Int) < 1024 ^ k := by positivity
    have hmul : div * 1024 ^ (k + 1) = div * 1024 * 1024 ^ k := by ring
    have hfit' : div * 1024 * 1024 ^ k < 2 ^ 63 := by rw [← hmul]; exact hfit
    have hprod0 : 0 ≤ div * 1024 := by positivity
    have hprod1 : div * 1024 < 2 ^ 63 := by nlinarith
    have hunit : ((unit : Nat) : Int) = 1024 := by simp [unit]
    rw [unitLoop, if_pos hge, hunit, wrapInt64_of_inRange _ hprod0 hprod1,
      outsideInt64_of_inRange _ hprod0 hprod1, Bool.or_false]
    have := ih f (n / unit) (div * 1024) (exp + 1) ovf (by omega) (by simpa [unit] using hn')
      (by simpa [unit] using hk') (by positivity) hfit'
    rw [this, hmul]
    congr 2
    simp only [Prod.mk.injEq, and_true]
    omega

/-- Every `uint64` of at least 1024 lies in exactly one of the six unit bands. -/
theorem unit_band (b : Nat) (hb : b < 2 ^ 64) (h : 1024 ≤ b) :
    ∃ e, e ≤ 5 ∧ 1024 ^ (e + 1) ≤ b ∧ b < 1024 ^ (e + 2) := by
  by_cases h1 : b < 1024 ^ 2
  · exact ⟨0, by omega, by omega, h1⟩
  by_cases h2 : b < 1024 ^ 3
  · exact ⟨1, by omega, by omega, h2⟩
  by_cases h3 : b < 1024 ^ 4
  · exact ⟨2, by omega, by omega, h3⟩
  by_cases h4 : b < 1024 ^ 5
  · exact ⟨3, by omega, by omega, h4⟩
  by_cases h5 : b < 1024 ^ 6
  · exact ⟨4, by omega, by omega, h5⟩
  · exact ⟨5, by omega, by omega, by norm_num; omega⟩

/-- The loop of `formatBytes` on a `uint64` of at least 1024, with any fuel
above 5: the band index `e` of `b` is the number of iterations. -/
theorem unitLoop_of_band (b e fuel : Nat) (he : e ≤ 5) (hf : 5 < fuel)
    (hlo : 1024 ^ (e + 1) ≤ b) (hhi : b < 1024 ^ (e + 2)) :
    unitLoop fuel (b / unit) (unit : Int) 0 false = some ((1024 : Int) ^ (e + 1), e, false) := by
  have hn : b / unit < 1024 ^ (e + 1) := by
    apply Nat.div_lt_of_lt_mul
    have : 1024 ^ (e + 2) = unit * 1024 ^ (e + 1) := by simp only [unit]; ring
    omega
  have hk : e = 0 ∨ 1024 ^ e ≤ b / unit := by
    right
    apply (Nat.le_div_iff_mul_le (by decide)).mpr
    have : 1024 ^ (e + 1) = 1024 ^ e * unit := by simp only [unit]; ring
    omega
  have hfit : ((unit : Nat) : Int) * 1024 ^ e < 2 ^ 63 := by
    simp only [unit]
    interval_cases e <;> norm_num
  have := unitLoop_spec e fuel (b / unit) (unit : Int) 0 false (by omega) hn hk
    (by simp [unit]) hfit
  rw [this]
  simp only [unit, Nat.cast_ofNat, zero_add, Option.some.injEq, Prod.mk.injEq, and_true]
  ring

/-- C10: for every `uint64` `b ≥ 1024` the unit-selection loop of `formatBytes`
ends (with any fuel above 5, so with the 64 that `formatBytes` gives it) with
`exp ≤ 5` and `div = 1024^(exp+1) ≤ 2^60`; no product `div * unit` left the
`int64` range; `"KMGTPE"[exp]` is in bounds, so `formatBytes` does not panic;
and `div ≤ b < 1024 * div`. -/
theorem formatBytes_loop_safe (b : Nat) (hb : b < 2 ^ 64) (h : 1024 ≤ b) :
    ∃ exp : Nat,
      (∀ fuel, 5 < fuel →
        unitLoop fuel (b / unit) (unit : Int) 0 false
          = some ((1024 : Int) ^ (exp + 1), exp, false)) ∧
      exp ≤ 5 ∧ (1024 : Int) ^ (exp + 1) ≤ 2 ^ 60 ∧
      (unitLetter exp).isSome = true ∧ (formatBytes b).isSome = true ∧
      1024 ^ (exp + 1) ≤ b ∧ b < 1024 * 1024 ^ (exp + 1) := by
  obtain ⟨e, he, hlo, hhi⟩ := unit_band b hb h
  have hletter : (unitLetter e).isSome = true := by
    interval_cases e <;> decide
  refine ⟨e, fun fuel hf => unitLoop_of_band b e fuel he hf hlo hhi, he, ?_, hletter, ?_, hlo, ?_⟩
  · interval_cases e <;> norm_num
  · have hnot : ¬ b < unit := by simp only [unit]; omega
    rw [formatBytes, if_neg hnot, unitLoop_of_band b e 64 he (by decide) hlo hhi]
    obtain ⟨c, hc⟩ := Option.isSome_iff_exists.mp hletter
    simp [hc]
  · have : 1024 ^ (e + 2) = 1024 * 1024 ^ (e + 1) := by ring
    omega

theorem formatBytes_loop_safe_witness :
    ∃ exp : Nat,
      (∀ fuel, 5 < fuel →
        unitLoop fuel (1536 / unit) (unit : Int) 0 false
          = some ((1024 : Int) ^ (exp + 1), exp, false)) ∧
      exp ≤ 5 ∧ (1024 : Int) ^ (exp + 1) ≤ 2 ^ 60 ∧
      (unitLetter exp).isSome = true ∧ (formatBytes 1536).isSome = true ∧
      1024 ^ (exp + 1) ≤ 1536 ∧ 1536 < 1024 * 1024 ^ (exp + 1) :=
  formatBytes_loop_safe 1536 (by decide) (by decide)

theorem roundHalfEven_nearest (num den : Nat) (hden : 0 < den) :
    2 * num ≤ 2 * (roundHalfEven num den * den) + den ∧
    2 * (roundHalfEven num den * den) ≤ 2 * num + den := by
  have h := Nat.div_add_mod num den
  have hr := Nat.mod_lt num hden
  unfold roundHalfEven
  generalize num / den = q at h ⊢
  generalize num % den = r at h hr ⊢
  have hq : (q + 1) * den = den * q + den := by ring
  have hq0 : q * den = den * q := by ring
  simp only []
  split_ifs <;> simp only [hq, hq0] <;> omega

theorem ulpOf_pos (fuel m : Nat) : 0 < ulpOf fuel m := by
  induction fuel generalizing m with
  | zero => simp [ulpOf]
  | succ f ih =>
    rw [ulpOf]
    split_ifs
    · exact Nat.one_pos
    · have := ih (m / 2)
      omega

theorem float64OfNat_exact (b : Nat) (hb : b < 2 ^ 53) : float64OfNat b = b := by
  have h1 : ulpOf 64 b = 1 := by rw [ulpOf, if_pos hb]
  simp [float64OfNat, h1, roundHalfEven, Nat.mod_one]

/-- What `formatBytes` returns from 1024 on: the letter of the band and the
`%.1f` rendering of `float64(b) / 1024^(e+1)`. -/
theorem formatBytes_of_band (b e : Nat) (c : Char) (he : e ≤ 5)
    (hlo : 1024 ^ (e + 1) ≤ b) (hhi : b < 1024 ^ (e + 2)) (hc : unitLetter e = some c) :
    formatBytes b
      = some (fmtF1 (float64OfNat b) ((1024 : Int) ^ (e + 1)) ++ " " ++ String.singleton c ++ "B") := by
  have hpos : 0 < 1024 ^ e := by positivity
  have hnot : ¬ b < unit := by
    simp only [unit]
    have : 1024 ^ (e + 1) = 1024 ^ e * 1024 := pow_succ 1024 e
    omega
  rw [formatBytes, if_neg hnot, unitLoop_of_band b e 64 he (by decide) hlo hhi]
  simp [hc]

theorem unitLetter_lt (e : Nat) (c : Char) (h : "KMGTPE".toList[e]? = some c) : e < 6 := by
  by_contra hge
  have hlen : "KMGTPE".toList.length ≤ e := by
    have : "KMGTPE".toList.length = 6 := by decide
    omega
  rw [List.getElem?_eq_none hlen] at h
  exact Option.noConfusion h

/-- C1, as amended: for every `uint64` `b` the result of `formatBytes` is the
string the specification describes, with `float64(b)` (the nearest value with
a 53-bit significand, `b` itself below `2^53`) in place of `b` as the number
that is divided and displayed; the three examples hold. -/
theorem formatBytes_spec_float (b : Nat) (hb : b < 2 ^ 64) :
    (∃ s, formatBytes b = some s ∧ FormatSpec (float64OfNat b) b s) ∧
    (b < 2 ^ 53 → float64OfNat b = b) ∧
    formatBytes 0 = some "0 B" ∧ formatBytes 1536 = some "1.5 KB" ∧
    formatBytes 1048576 = some "1.0 MB" := by
  refine ⟨?_, float64OfNat_exact b, by decide, by decide, by decide⟩
  by_cases hsmall : b < 1024
  · refine ⟨toString b ++ " B", ?_, ?_⟩
    · have : b < unit := hsmall
      rw [formatBytes, if_pos this]
    · rw [FormatSpec, if_pos hsmall]
  · obtain ⟨e, he, hlo, hhi⟩ := unit_band b hb (by omega)
    obtain ⟨c, hc⟩ : ∃ c, unitLetter e = some c := by
      interval_cases e <;> exact ⟨_, rfl⟩
    refine ⟨_, formatBytes_of_band b e c he hlo hhi hc, ?_⟩
    rw [FormatSpec, if_neg hsmall]
    have hy : ((1024 : Int) ^ (e + 1)).toNat = 1024 ^ (e + 1) := by
      have : ((1024 : Int) ^ (e + 1)) = ((1024 ^ (e + 1) : Nat) : Int) := by push_cast; rfl
      rw [this, Int.toNat_ofNat]
    refine ⟨e, roundHalfEven (10 * float64OfNat b) (1024 ^ (e + 1)), c, hlo, hhi, hc, ?_, ?_⟩
    · exact roundHalfEven_nearest _ _ (by positivity)
    · simp only [fmtF1, hy]

theorem formatBytes_spec_float_witness :
    (∃ s, formatBytes 1280 = some s ∧ FormatSpec (float64OfNat 1280) 1280 s) ∧
    (1280 < 2 ^ 53 → float64OfNat 1280 = 1280) ∧
    formatBytes 0 = some "0 B" ∧ formatBytes 1536 = some "1.5 KB" ∧
    formatBytes 1048576 = some "1.0 MB" :=
  formatBytes_spec_float 1280 (by decide)

set_option maxRecDepth 100000 in
/-- C1 as stated fails at `b = 9063494250083123` (between `2^53` and `2^54`):
`float64(b)` is `b + 1`, which lies on the other side of `8.05 * 2^50`, so
`formatBytes` returns `"8.1 PB"` although the nearest tenth of `b / 2^50` is
`8.0`. -/
theorem formatBytes_not_nearest :
    formatBytes 9063494250083123 = some "8.1 PB" ∧
    float64OfNat 9063494250083123 = 9063494250083124 ∧
    ¬ FormatSpec 9063494250083123 9063494250083123 "8.1 PB" := by
  refine ⟨by decide, by decide, ?_⟩
  rw [FormatSpec, if_neg (by decide)]
  rintro ⟨e, d, c, hlo, hhi, hc, hn, hs⟩
  have he := unitLetter_lt e c hc
  interval_cases e
  · norm_num at hhi
  · norm_num at hhi
  · norm_num at hhi
  · norm_num at hhi
  · have hd : d = 80 := by
      unfold NearestTenth at hn
      norm_num at hn
      omega
    subst hd
    have hc' : c = 'P' := by
      have : "KMGTPE".toList[4]? = some 'P' := by decide
      rw [this] at hc
      exact (Option.some.inj hc).symm
    subst hc'
    exact absurd hs (by decide)
  · norm_num at hlo

/-! ### The decimal numerals read back -/

theorem digitChar_digit (m : Nat) (h : m < 10) :
    (Nat.digitChar m).isDigit = true ∧ (Nat.digitChar m).toNat - 48 = m := by
  interval_cases m <;> exact ⟨by decide, by decide⟩

theorem digitsValue_snoc (ds : List Char) (c : Char) :
    digitsValue (ds ++ [c]) = 10 * digitsValue ds + (c.toNat - 48) := by
  simp [digitsValue, List.foldl_append]

/-- With fuel above `n`, `Nat.toDigitsCore 10` puts in front of the accumulator
a run of digit characters whose value is `n`. -/
theorem toDigitsCore_run (fuel : Nat) : ∀ (n : Nat) (acc : List Char), n < fuel →
    ∃ ds : List Char, Nat.toDigitsCore 10 fuel n acc = ds ++ acc ∧
      (∀ c ∈ ds, c.isDigit = true) ∧ digitsValue ds = n := by
  induction fuel with
  | zero => intro n acc h; omega
  | succ f ih =>
    intro n acc hn
    obtain ⟨hdig, hval⟩ := digitChar_digit (n % 10) (Nat.mod_lt n (by decide))
    by_cases hz : n / 10 = 0
    · refine ⟨[Nat.digitChar (n % 10)], ?_, ?_, ?_⟩
      · simp [Nat.toDigitsCore, hz]
      · intro c hc
        rw [List.mem_singleton] at hc
        rw [hc]; exact hdig
      · have := digitsValue_snoc [] (Nat.digitChar (n % 10))
        simp only [List.nil_append] at this
        rw [this, hval]
        simp only [digitsValue, List.foldl_nil]
        omega
    · obtain ⟨ds, hds, hall, hv⟩ := ih (n / 10) (Nat.digitChar (n % 10) :: acc) (by omega)
      refine ⟨ds ++ [Nat.digitChar (n % 10)], ?_, ?_, ?_⟩
      · simp [Nat.toDigitsCore, hz, hds]
      · intro c hc
        rcases List.mem_append.mp hc with h | h
        · exact hall c h
        · rw [List.mem_singleton] at h
          rw [h]; exact hdig
      · rw [digitsValue_snoc, hv, hval]
        omega

theorem toString_run (n : Nat) :
    (∀ c ∈ (toString n).toList, c.isDigit = true) ∧ digitsValue (toString n).toList = n := by
  obtain ⟨ds, hds, hall, hv⟩ := toDigitsCore_run (n + 1) n [] (by omega)
  have h : (toString n).toList = ds := by
    show Nat.toDigits 10 n = ds
    rw [Nat.toDigits, hds, List.append_nil]
  rw [h]
  exact ⟨hall, hv⟩

theorem toString_length_digit (t : Nat) (ht : t < 10) : (toString t).toList.length = 1 := by
  interval_cases t <;> decide

theorem unitMultiplier_letter (e : Nat) (c : Char) (hc : unitLetter e = some c) :
    unitMultiplier [c, 'B'] = some (1024 ^ (e + 1)) := by
  have he : e < 6 := unitLetter_lt e c hc
  interval_cases e <;> (cases Option.some.inj hc; decide)

/-- The parser on a bare count: `<n> B` reads as `n`. -/
theorem parseFormatted_plain (n : Nat) : parseFormatted (toString n ++ " B") = some (n : ℚ) := by
  obtain ⟨hall, hv⟩ := toString_run n
  have hcs : (toString n ++ " B").toList = (toString n).toList ++ ' ' :: ['B'] := by
    rw [String.toList, String.data_append]; rfl
  have hsp : ¬ (' ' : Char).isDigit = true := by decide
  have htake : ((toString n).toList ++ ' ' :: ['B']).takeWhile Char.isDigit
      = (toString n).toList := by
    rw [List.takeWhile_append_of_pos hall, List.takeWhile_cons_of_neg hsp, List.append_nil]
  have hdrop : ((toString n).toList ++ ' ' :: ['B']).dropWhile Char.isDigit
      = ' ' :: ['B'] := by
    rw [List.dropWhile_append_of_pos hall, List.dropWhile_cons_of_neg hsp]
  simp only [parseFormatted, hcs, htake, hdrop, hv]
  simp [unitMultiplier]

/-- The parser on a one-decimal rendering: `<i>.<t> <c>B` reads as
`(i + t/10) * 1024^(e+1)` when `c` is the `e`-th letter. -/
theorem parseFormatted_tenths (i t e : Nat) (c : Char) (ht : t < 10)
    (hc : unitLetter e = some c) :
    parseFormatted (toString i ++ "." ++ toString t ++ " " ++ String.singleton c ++ "B")
      = some (((i : ℚ) + (t : ℚ) / 10) * (1024 ^ (e + 1) : Nat)) := by
  obtain ⟨halli, hvi⟩ := toString_run i
  obtain ⟨hallt, hvt⟩ := toString_run t
  have hcs : (toString i ++ "." ++ toString t ++ " " ++ String.singleton c ++ "B").toList
      = (toString i).toList ++ '.' :: ((toString t).toList ++ ' ' :: [c, 'B']) := by
    simp only [String.toList, String.data_append, List.append_assoc]
    rfl
  have hsp : ¬ (' ' : Char).isDigit = true := by decide
  have hdot : ¬ ('.' : Char).isDigit = true := by decide
  simp only [parseFormatted, hcs, List.takeWhile_append_of_pos halli,
    List.dropWhile_append_of_pos halli, List.takeWhile_cons_of_neg hdot,
    List.dropWhile_cons_of_neg hdot, List.takeWhile_append_of_pos hallt,
    List.dropWhile_append_of_pos hallt, List.takeWhile_cons_of_neg hsp,
    List.dropWhile_cons_of_neg hsp, List.append_nil, hvi, hvt,
    toString_length_digit t ht, unitMultiplier_letter e c hc]
  simp

theorem ulpOf_le (fuel : Nat) : ∀ (k m : Nat), m < 2 ^ (53 + k) → ulpOf fuel m ≤ 2 ^ k := by
  induction fuel with
  | zero => intro k m _; simpa [ulpOf] using Nat.one_le_two_pow
  | succ f ih =>
    intro k m hm
    rw [ulpOf]
    split_ifs with h
    · exact Nat.one_le_two_pow
    · obtain ⟨j, rfl⟩ : ∃ j, k = j + 1 := by
        refine ⟨k - 1, ?_⟩
        rcases Nat.eq_zero_or_pos k with h0 | h0
        · subst h0; simp at hm; omega
        · omega
      have hm2 : m / 2 < 2 ^ (53 + j) := by
        apply Nat.div_lt_of_lt_mul
        have : 2 ^ (53 + (j + 1)) = 2 * 2 ^ (53 + j) := by ring
        omega
      have := ih j (m / 2) hm2
      have h2 : 2 ^ (j + 1) = 2 * 2 ^ j := by ring
      omega

/-- The conversion to `float64` moves a `uint64` by at most 1024. -/
theorem float64OfNat_close (b : Nat) (hb : b < 2 ^ 64) :
    b ≤ float64OfNat b + 1024 ∧ float64OfNat b ≤ b + 1024 := by
  have hu : ulpOf 64 b ≤ 2 ^ 11 := ulpOf_le 64 11 b (by simpa using hb)
  have hn := roundHalfEven_nearest b (ulpOf 64 b) (ulpOf_pos 64 b)
  simp only [float64OfNat]
  norm_num at hu
  omega

/-- C8, as amended: for every `uint64` `b`, `formatBytes b` parses back to
exactly `b` when `b < 1024`, and from 1024 on to a value at most
`0.05 * 1024^(e+1)` away from `float64(b)`, the nearest value to `b` with a
53-bit significand: that is `b` itself below `2^53`, and never more than 1024
away from `b`. -/
theorem formatBytes_roundtrip (b : Nat) (hb : b < 2 ^ 64) :
    ∃ s v, formatBytes b = some s ∧ parseFormatted s = some v ∧
      (b < 1024 → v = (b : ℚ)) ∧
      (1024 ≤ b → ∃ e, 1024 ^ (e + 1) ≤ b ∧ b < 1024 ^ (e + 2) ∧
        |v - (float64OfNat b : ℚ)| ≤ (1 / 20) * (1024 : ℚ) ^ (e + 1)) ∧
      (b < 2 ^ 53 → float64OfNat b = b) ∧
      |(float64OfNat b : ℚ) - (b : ℚ)| ≤ 1024 := by
  have hclose : |(float64OfNat b : ℚ) - (b : ℚ)| ≤ 1024 := by
    obtain ⟨h1, h2⟩ := float64OfNat_close b hb
    have h1q : (b : ℚ) ≤ (float64OfNat b : ℚ) + 1024 := by exact_mod_cast h1
    have h2q : (float64OfNat b : ℚ) ≤ (b : ℚ) + 1024 := by exact_mod_cast h2
    rw [abs_le]
    constructor <;> linarith
  by_cases hsmall : b < 1024
  · refine ⟨toString b ++ " B", (b : ℚ), ?_, parseFormatted_plain b, fun _ => rfl,
      fun h => absurd hsmall (by omega), float64OfNat_exact b, hclose⟩
    have : b < unit := hsmall
    rw [formatBytes, if_pos this]
  · obtain ⟨e, he, hlo, hhi⟩ := unit_band b hb (by omega)
    obtain ⟨c, hc⟩ : ∃ c, unitLetter e = some c := by
      interval_cases e <;> exact ⟨_, rfl⟩
    have hy : ((1024 : Int) ^ (e + 1)).toNat = 1024 ^ (e + 1) := by
      have : ((1024 : Int) ^ (e + 1)) = ((1024 ^ (e + 1) : Nat) : Int) := by push_cast; rfl
      rw [this, Int.toNat_ofNat]
    have hfmt := formatBytes_of_band b e c he hlo hhi hc
    simp only [fmtF1, hy] at hfmt
    have hnear := roundHalfEven_nearest (10 * float64OfNat b) (1024 ^ (e + 1)) (by positivity)
    generalize roundHalfEven (10 * float64OfNat b) (1024 ^ (e + 1)) = d at hfmt hnear
    refine ⟨_, _, hfmt, parseFormatted_tenths (d / 10) (d % 10) e c (Nat.mod_lt d (by decide)) hc,
      fun h => absurd h hsmall, fun _ => ⟨e, hlo, hhi, ?_⟩, float64OfNat_exact b, hclose⟩
    have hd : (d : ℚ) = 10 * ((d / 10 : Nat) : ℚ) + ((d % 10 : Nat) : ℚ) := by
      exact_mod_cast (Nat.div_add_mod d 10).symm
    have hval : (((d / 10 : Nat) : ℚ) + ((d % 10 : Nat) : ℚ) / 10) * ((1024 ^ (e + 1) : Nat) : ℚ)
        = (d : ℚ) * (1024 : ℚ) ^ (e + 1) / 10 := by
      rw [hd]; push_cast; ring
    rw [hval]
    obtain ⟨n1, n2⟩ := hnear
    have q1 : (2 * (10 * (float64OfNat b : ℚ))) ≤ 2 * ((d : ℚ) * (1024 : ℚ) ^ (e + 1))
        + (1024 : ℚ) ^ (e + 1) := by exact_mod_cast n1
    have q2 : 2 * ((d : ℚ) * (1024 : ℚ) ^ (e + 1)) ≤ 2 * (10 * (float64OfNat b : ℚ))
        + (1024 : ℚ) ^ (e + 1) := by exact_mod_cast n2
    rw [abs_le]
    constructor <;> linarith

theorem formatBytes_roundtrip_witness :
    ∃ s v, formatBytes 1536 = some s ∧ parseFormatted s = some v ∧
      (1536 < 1024 → v = ((1536 : Nat) : ℚ)) ∧
      (1024 ≤ 1536 → ∃ e, 1024 ^ (e + 1) ≤ 1536 ∧ 1536 < 1024 ^ (e + 2) ∧
        |v - (float64OfNat 1536 : ℚ)| ≤ (1 / 20) * (1024 : ℚ) ^ (e + 1)) ∧
      (1536 < 2 ^ 53 → float64OfNat 1536 = 1536) ∧
      |(float64OfNat 1536 : ℚ) - ((1536 : Nat) : ℚ)| ≤ 1024 :=
  formatBytes_roundtrip 1536 (by decide)

set_option maxRecDepth 100000 in
/-- C8 as stated fails at `b = 18389097998479209268` (in the band of `1024^6`):
`formatBytes` returns `"15.9 EB"`, which parses back to `15.9 * 1024^6`, more
than `0.05 * 1024^6` below `b`. -/
theorem roundtrip_exceeds_tolerance :
    formatBytes 18389097998479209268 = some "15.9 EB" ∧
    parseFormatted "15.9 EB" = some ((159 : ℚ) / 10 * 1024 ^ 6) ∧
    1024 ^ 6 ≤ 18389097998479209268 ∧ 18389097998479209268 < 1024 ^ 7 ∧
    ¬ |(159 : ℚ) / 10 * 1024 ^ 6 - 18389097998479209268| ≤ (1 / 20) * (1024 : ℚ) ^ 6 := by
  refine ⟨by decide, ?_, by decide, by decide, ?_⟩
  · have h := parseFormatted_tenths 15 9 5 'E' (by decide) (by decide)
    have hs : toString 15 ++ "." ++ toString 9 ++ " " ++ String.singleton 'E' ++ "B"
        = "15.9 EB" := by decide
    rw [hs] at h
    rw [h]
    norm_num
  · rw [abs_le]
    norm_num

theorem formatBytes_isSome (b : Nat) (hb : b < 2 ^ 64) : ∃ s, formatBytes b = some s := by
  by_cases hsmall : b < 1024
  · have : b < unit := hsmall
    exact ⟨_, by rw [formatBytes, if_pos this]⟩
  · obtain ⟨e, he, hlo, hhi⟩ := unit_band b hb (by omega)
    obtain ⟨c, hc⟩ : ∃ c, unitLetter e = some c := by
      interval_cases e <;> exact ⟨_, rfl⟩
    exact ⟨_, formatBytes_of_band b e c he hlo hhi hc⟩

/-! ## Theorems: the check strategies -/

theorem quiet_checkURL (w : World) (url : String) : Quiet (checkURL w url) := by
  unfold checkURL
  split_ifs
  · exact ⟨rfl, rfl⟩
  · split
    · exact ⟨rfl, rfl⟩
    · split_ifs <;> exact ⟨rfl, rfl⟩

theorem quiet_reportRunning (w : World) (pid : Int) (name : String) (p : Process) :
    Quiet (reportRunning w pid name p) := by
  unfold reportRunning
  split <;> exact ⟨rfl, rfl⟩

theorem quiet_findByName (w : World) (name : String) (ps : List Process) :
    Quiet (findByName w name ps).1 := by
  induction ps with
  | nil => exact ⟨rfl, rfl⟩
  | cons proc rest ih =>
    unfold findByName
    split_ifs
    · exact ⟨rfl, rfl⟩
    · obtain ⟨h1, h2⟩ := ih
      constructor
      · simpa [panicked] using h1
      · simpa [invocations] using h2

theorem quiet_append (t u : List Event) (ht : Quiet t) (hu : Quiet u) : Quiet (t ++ u) := by
  obtain ⟨h1, h2⟩ := ht
  obtain ⟨h3, h4⟩ := hu
  constructor
  · simp only [panicked, List.any_append, Bool.or_eq_false_iff] at h1 h3 ⊢
    exact ⟨h1, h3⟩
  · simp only [invocations, List.filterMap_append] at h2 h4 ⊢
    rw [h2, h4]; rfl

theorem quiet_checkProcess (w : World) (pid : Int) (name : String) :
    Quiet (checkProcess w pid name) := by
  unfold checkProcess
  split_ifs
  · split
    · exact ⟨rfl, rfl⟩
    · exact quiet_append [_] _ ⟨rfl, rfl⟩ (quiet_reportRunning w pid name _)
  · split
    · exact ⟨rfl, rfl⟩
    · rename_i processes _
      have hq := quiet_findByName w name processes
      split
      · rename_i calls hfind
        rw [hfind] at hq
        exact quiet_append (_ :: calls) [_] (quiet_append [_] calls ⟨rfl, rfl⟩ hq) ⟨rfl, rfl⟩
      · rename_i calls p hfind
        rw [hfind] at hq
        exact quiet_append (_ :: calls) _ (quiet_append [_] calls ⟨rfl, rfl⟩ hq)
          (quiet_reportRunning w pid name p)
  · exact ⟨rfl, rfl⟩

theorem quiet_checkCPU (w : World) : Quiet (checkCPU w) := by
  unfold checkCPU
  split <;> exact ⟨rfl, rfl⟩

theorem quiet_checkMemory (w : World) : Quiet (checkMemory w) := by
  unfold checkMemory
  split
  · exact ⟨rfl, rfl⟩
  · rename_i vmStat _
    obtain ⟨u, hu⟩ := formatBytes_isSome vmStat.used.val vmStat.used.isLt
    obtain ⟨t, ht⟩ := formatBytes_isSome vmStat.total.val vmStat.total.isLt
    rw [hu, ht]
    exact ⟨rfl, rfl⟩

theorem quiet_dialPorts (w : World) (host : String) (ports : List String) :
    Quiet (dialPorts w host ports).1 := by
  induction ports with
  | nil => exact ⟨rfl, rfl⟩
  | cons port rest ih =>
    unfold dialPorts
    simp only []
    split_ifs
    · exact ⟨rfl, rfl⟩
    · exact quiet_append [_] _ ⟨rfl, rfl⟩ ih

theorem quiet_checkHost (w : World) (host : String) : Quiet (checkHost w host) := by
  unfold checkHost
  simp only []
  split_ifs
  · exact ⟨rfl, rfl⟩
  · exact quiet_dialPorts w host _
  · exact quiet_append _ [_] (quiet_dialPorts w host _) ⟨rfl, rfl⟩

theorem quiet_resolveConfigPath (w : World) (kubeconfig : String) :
    Quiet (resolveConfigPath w kubeconfig).1 := by
  unfold resolveConfigPath
  split_ifs
  · split <;> exact ⟨rfl, rfl⟩
  · exact ⟨rfl, rfl⟩

theorem quiet_checkKubernetes (w : World) (kubeconfig : String) :
    Quiet (checkKubernetes w kubeconfig) := by
  have hq := quiet_resolveConfigPath w kubeconfig
  unfold checkKubernetes
  simp only []
  split
  · exact quiet_append _ _ hq ⟨rfl, rfl⟩
  · split
    · exact quiet_append _ _ hq ⟨rfl, rfl⟩
    · split <;> exact quiet_append _ _ hq ⟨rfl, rfl⟩

/-! ## Theorems: the scheduler -/

theorem andThen_of_quiet (t u : List Event) (h : panicked t = false) : andThen t u = t ++ u := by
  rw [andThen, h]; rfl

theorem quiet_call_panicked (c : Check) (body : List Event) (h : Quiet body) :
    panicked (call c body) = false := by
  simpa [call, panicked] using h.1

theorem invocations_call (c : Check) (body rest : List Event) (h : Quiet body) :
    invocations (call c body ++ rest) = c :: invocations rest := by
  have h2 := h.2
  simp only [invocations, call, List.cons_append, List.filterMap_cons, List.filterMap_append]
    at h2 ⊢
  rw [h2]; rfl

theorem panicked_append (t u : List Event) (ht : panicked t = false) (hu : panicked u = false) :
    panicked (t ++ u) = false := by
  simp only [panicked, List.any_append, Bool.or_eq_false_iff] at ht hu ⊢
  exact ⟨ht, hu⟩

/-- One tick of the service kind `all` is the batch of the specification and
does not leave the loop. -/
theorem tick_all_eq (cfg : Config) (w : World) (h : cfg.service = "all") :
    tick cfg w = (allBatch cfg w, false) := by
  have pu := quiet_call_panicked .url _ (quiet_checkURL w cfg.targetURL)
  have pp := quiet_call_panicked .process _ (quiet_checkProcess w cfg.processID cfg.processName)
  have ph := quiet_call_panicked .host _ (quiet_checkHost w cfg.host)
  have pk := quiet_call_panicked .kubernetes _ (quiet_checkKubernetes w cfg.kubeconfig)
  have pc := quiet_call_panicked .cpu _ (quiet_checkCPU w)
  have pm := quiet_call_panicked .memory _ (quiet_checkMemory w)
  rw [tick, h, if_neg (by decide), if_neg (by decide), if_neg (by decide), if_neg (by decide),
    if_neg (by decide), if_neg (by decide), if_pos rfl]
  rw [andThen_of_quiet _ _ pm, andThen_of_quiet _ _ pc, andThen_of_quiet _ _ pk,
    andThen_of_quiet _ _ ph, andThen_of_quiet _ _ pp, andThen_of_quiet _ _ pu,
    andThen_of_quiet [Event.log "--- Monitoring All ---"] _ rfl]
  simp only [allBatch, List.append_assoc]

theorem panicked_allBatch (cfg : Config) (w : World) : panicked (allBatch cfg w) = false := by
  have pu := quiet_call_panicked .url _ (quiet_checkURL w cfg.targetURL)
  have pp := quiet_call_panicked .process _ (quiet_checkProcess w cfg.processID cfg.processName)
  have ph := quiet_call_panicked .host _ (quiet_checkHost w cfg.host)
  have pk := quiet_call_panicked .kubernetes _ (quiet_checkKubernetes w cfg.kubeconfig)
  have pc := quiet_call_panicked .cpu _ (quiet_checkCPU w)
  have pm := quiet_call_panicked .memory _ (quiet_checkMemory w)
  unfold allBatch
  exact panicked_append _ _ (panicked_append _ _ (panicked_append _ _ (panicked_append _ _
    (panicked_append _ _ (panicked_append _ _ (panicked_append _ _ rfl pu) pp) ph) pk) pc) pm) rfl

theorem invocations_append (t u : List Event) :
    invocations (t ++ u) = invocations t ++ invocations u := by
  simp [invocations, List.filterMap_append]

theorem invocations_allBatch (cfg : Config) (w : World) :
    invocations (allBatch cfg w) = allOrder := by
  simp only [allBatch, List.append_assoc]
  rw [invocations_append, invocations_call _ _ _ (quiet_checkURL w cfg.targetURL),
    invocations_call _ _ _ (quiet_checkProcess w cfg.processID cfg.processName),
    invocations_call _ _ _ (quiet_checkHost w cfg.host),
    invocations_call _ _ _ (quiet_checkKubernetes w cfg.kubeconfig),
    invocations_call _ _ _ (quiet_checkCPU w),
    invocations_call _ _ _ (quiet_checkMemory w)]
  rfl

/-- C2: for the service kind `all`, every tick is the delimiter line, the six
checks URL, Process, Host, Kubernetes, CPU, Memory in that order, once each,
and the closing delimiter line, and the loop goes on; so over any number of
ticks, whatever the collaborators answer at each, the invocations are that
sequence of six repeated once a tick. -/
theorem tick_all_invokes_six (cfg : Config) (w : World) (ws : List World)
    (h : cfg.service = "all") :
    tick cfg w = (allBatch cfg w, false) ∧
    invocations (tick cfg w).1 = [.url, .process, .host, .kubernetes, .cpu, .memory] ∧
    (tick cfg w).1.head? = some (.log "--- Monitoring All ---") ∧
    (tick cfg w).1.getLast? = some (.log "----------------------") ∧
    invocations (loop cfg ws).1
      = (ws.map fun _ => [Check.url, .process, .host, .kubernetes, .cpu, .memory]).flatten ∧
    (loop cfg ws).2 = .running := by
  have ht := tick_all_eq cfg w h
  refine ⟨ht, ?_, ?_, ?_, ?_, ?_⟩
  · rw [ht]; exact invocations_allBatch cfg w
  · rw [ht]; rfl
  · rw [ht]
    simp only [allBatch]
    rw [List.getLast?_append]
    rfl
  · induction ws with
    | nil => rfl
    | cons v vs ih =>
      rw [loop, tick_all_eq cfg v h]
      simp only [panicked_allBatch, Bool.false_eq_true, if_false, invocations_append,
        invocations_allBatch, List.map_cons, List.flatten_cons, ih]
      rfl
  · induction ws with
    | nil => rfl
    | cons v vs ih =>
      rw [loop, tick_all_eq cfg v h]
      simp only [panicked_allBatch, Bool.false_eq_true, if_false, ih]

theorem tick_all_invokes_six_witness :
    tick (defaultConfig "all" true) downWorld
      = (allBatch (defaultConfig "all" true) downWorld, false) ∧
    invocations (tick (defaultConfig "all" true) downWorld).1
      = [.url, .process, .host, .kubernetes, .cpu, .memory] ∧
    (tick (defaultConfig "all" true) downWorld).1.head? = some (.log "--- Monitoring All ---") ∧
    (tick (defaultConfig "all" true) downWorld).1.getLast?
      = some (.log "----------------------") ∧
    invocations (loop (defaultConfig "all" true) [downWorld, downWorld]).1
      = ([downWorld, downWorld].map
          fun _ => [Check.url, .process, .host, .kubernetes, .cpu, .memory]).flatten ∧
    (loop (defaultConfig "all" true) [downWorld, downWorld]).2 = .running :=
  tick_all_invokes_six (defaultConfig "all" true) downWorld [downWorld, downWorld] rfl

theorem tick_unknown (cfg : Config) (w : World) (h : cfg.service ∉ serviceKinds) :
    tick cfg w = ([.log (unknownServiceLine cfg.service)], true) := by
  simp only [serviceKinds, List.mem_cons, List.mem_singleton, List.not_mem_nil, or_false,
    not_or] at h
  obtain ⟨h1, h2, h3, h4, h5, h6, h7⟩ := h
  rw [tick, if_neg h1, if_neg h2, if_neg h3, if_neg h4, if_neg h5, if_neg h6, if_neg h7]

theorem tick_known (cfg : Config) (w : World) (h : cfg.service ∈ serviceKinds) :
    (tick cfg w).2 = false ∧ panicked (tick cfg w).1 = false := by
  simp only [serviceKinds, List.mem_cons, List.mem_singleton, List.not_mem_nil, or_false] at h
  rcases h with h | h | h | h | h | h | h
  · rw [tick, if_pos h]
    exact ⟨rfl, quiet_call_panicked _ _ (quiet_checkURL w _)⟩
  · rw [tick, h, if_neg (by decide), if_pos rfl]
    exact ⟨rfl, quiet_call_panicked _ _ (quiet_checkProcess w _ _)⟩
  · rw [tick, h, if_neg (by decide), if_neg (by decide), if_pos rfl]
    exact ⟨rfl, quiet_call_panicked _ _ (quiet_checkCPU w)⟩
  · rw [tick, h, if_neg (by decide), if_neg (by decide), if_neg (by decide), if_pos rfl]
    exact ⟨rfl, quiet_call_panicked _ _ (quiet_checkMemory w)⟩
  · rw [tick, h, if_neg (by decide), if_neg (by decide), if_neg (by decide), if_neg (by decide),
      if_pos rfl]
    exact ⟨rfl, quiet_call_panicked _ _ (quiet_checkHost w _)⟩
  · rw [tick, h, if_neg (by decide), if_neg (by decide), if_neg (by decide), if_neg (by decide),
      if_neg (by decide), if_pos rfl]
    exact ⟨rfl, quiet_call_panicked _ _ (quiet_checkKubernetes w _)⟩
  · rw [tick_all_eq cfg w h]
    exact ⟨rfl, panicked_allBatch cfg w⟩

theorem loop_known_running (cfg : Config) (h : cfg.service ∈ serviceKinds) (ticks : List World) :
    (loop cfg ticks).2 = .running := by
  induction ticks with
  | nil => rfl
  | cons w ws ih =>
    obtain ⟨h1, h2⟩ := tick_known cfg w h
    rw [loop]
    generalize tick cfg w = r at h1 h2
    obtain ⟨t, leave⟩ := r
    simp only at h1 h2
    subst h1
    simp only [h2, Bool.false_eq_true, if_false, ih]

theorem loop_unknown (cfg : Config) (w : World) (ws : List World)
    (h : cfg.service ∉ serviceKinds) :
    loop cfg (w :: ws) = ([.log (unknownServiceLine cfg.service)], .returned) := by
  rw [loop, tick_unknown cfg w h]

theorem Run_unknown (cfg : Config) (w : World) (ws : List World)
    (h : cfg.service ∉ serviceKinds) (hp : 0 < tickerPeriod cfg.interval) :
    Run cfg (w :: ws) = (banner cfg ++ [.log (unknownServiceLine cfg.service)], .returned) := by
  rw [Run, if_neg (by omega), loop_unknown cfg w ws h]

/-- C3: with a service string that is none of web, process, cpu, memory, ping,
k8s, all, the loop at its first tick logs the one line that lists the valid
kinds and returns: that line is the whole trace of the loop, so no check
strategy is invoked, whatever ticks would follow, and the run (its ticker
started) returns after its start-up lines and that line; with one of the
seven, the loop is still running after any number of ticks. -/
theorem loop_unknown_service (cfg : Config) (w : World) (ws : List World) :
    (cfg.service ∉ serviceKinds →
      loop cfg (w :: ws) = ([.log (unknownServiceLine cfg.service)], .returned) ∧
      invocations (loop cfg (w :: ws)).1 = [] ∧
      unknownServiceLine cfg.service = "Unknown service type: " ++ cfg.service
        ++ ". Supported types: web, process, cpu, memory, ping, k8s, all" ∧
      (0 < tickerPeriod cfg.interval →
        Run cfg (w :: ws)
          = (banner cfg ++ [.log (unknownServiceLine cfg.service)], .returned))) ∧
    (cfg.service ∈ serviceKinds → ∀ ticks, (loop cfg ticks).2 = .running) := by
  refine ⟨fun h => ⟨loop_unknown cfg w ws h, ?_, rfl, fun hp => Run_unknown cfg w ws h hp⟩,
    fun h ticks => loop_known_running cfg h ticks⟩
  rw [loop_unknown cfg w ws h]
  rfl

theorem loop_unknown_service_witness :
    (loop (defaultConfig "bogus" true) [downWorld, downWorld]
        = ([.log (unknownServiceLine "bogus")], .returned) ∧
      invocations (loop (defaultConfig "bogus" true) [downWorld, downWorld]).1 = [] ∧
      unknownServiceLine "bogus" = "Unknown service type: " ++ "bogus"
        ++ ". Supported types: web, process, cpu, memory, ping, k8s, all" ∧
      (0 < tickerPeriod 30 →
        Run (defaultConfig "bogus" true) [downWorld, downWorld]
          = (banner (defaultConfig "bogus" true) ++ [.log (unknownServiceLine "bogus")],
            .returned))) ∧
    (∀ ticks, (loop (defaultConfig "ping" true) ticks).2 = .running) :=
  ⟨(loop_unknown_service (defaultConfig "bogus" true) downWorld [downWorld]).1 (by decide),
    (loop_unknown_service (defaultConfig "ping" true) downWorld []).2 (by decide)⟩

/-- C4, as amended: with an unrecognized service kind (a positive ticker period
and a first tick), the monitor run logs the error line and returns normally;
`Execute` gives `main` the error `nil`, and the exit status of the process
is 0. -/
theorem main_unknown_service_exit (cfg : Config) (w : World) (ws : List World)
    (h : cfg.service ∉ serviceKinds) (hp : 0 < tickerPeriod cfg.interval) :
    Run cfg (w :: ws) = (banner cfg ++ [.log (unknownServiceLine cfg.service)], .returned) ∧
    (Execute cfg (w :: ws)).2 = .returned none ∧
    (main cfg (w :: ws)).2 = some 0 := by
  have hr := Run_unknown cfg w ws h hp
  refine ⟨hr, ?_, ?_⟩
  · rw [Execute, hr]
  · rw [main, Execute, hr]

theorem main_unknown_service_exit_witness :
    Run (defaultConfig "bogus" true) [downWorld]
      = (banner (defaultConfig "bogus" true) ++ [.log (unknownServiceLine "bogus")], .returned) ∧
    (Execute (defaultConfig "bogus" true) [downWorld]).2 = .returned none ∧
    (main (defaultConfig "bogus" true) [downWorld]).2 = some 0 :=
  main_unknown_service_exit (defaultConfig "bogus" true) downWorld [] (by decide) (by decide)

/-- C4 as stated fails: `automater monitor --service bogus`, at its first tick,
logs the error line and the process exits with status 0. -/
theorem main_bogus_exits_zero :
    main (defaultConfig "bogus" true) [downWorld]
      = ([.log "Starting monitoring task: bogus", .log "Check interval: 30 seconds",
          .log ("Unknown service type: bogus. "
            ++ "Supported types: web, process, cpu, memory, ping, k8s, all")],
        some 0) := by
  decide

/-- C5 fails on the code: `automater monitor --service all --log=false` prints
the notice that no logs will be printed and then, at the first tick, writes
nine lines to the log sink while every collaborator fails. -/
theorem silent_mode_still_logs :
    (Run (defaultConfig "all" false) [downWorld]).1.head?
      = some (.stdout "Silent mode enabled. No logs will be printed.") ∧
    logLines (Run (defaultConfig "all" false) [downWorld]).1
      = ["--- Monitoring All ---",
          "URL monitoring requires the --url flag to be set.",
          "Process monitoring requires either --pid or --process-name flag.",
          "Host/IP monitoring requires the --host flag to be set.",
          "Error getting user home directory: $HOME is not defined",
          "Error building kubeconfig from .kube/config: no such file or directory",
          "Error getting CPU usage: not implemented yet",
          "Error getting memory usage: not implemented yet",
          "----------------------"] := by
  decide

/-! ## Theorems: the process check and the host check -/

/-- C9 fails on the code: the PID handed to `process.NewProcess` is
`int32(pid)`; for `--pid 4294967297` it is 1 and for `--pid 4294967296` it
is 0, whatever the process table answers. -/
theorem checkProcess_pid_truncated (w : World) (name : String) :
    (checkProcess w 4294967297 name).head? = some (.newProcess 1) ∧
    (checkProcess w 4294967296 name).head? = some (.newProcess 0) := by
  have h1 : toInt32 4294967297 = 1 := by decide
  have h0 : toInt32 4294967296 = 0 := by decide
  constructor
  · rw [checkProcess, if_pos (by decide), h1]
    split <;> rfl
  · rw [checkProcess, if_pos (by decide), h0]
    split <;> rfl

theorem reportRunning_events (w : World) (pid : Int) (name : String) (p : Process) :
    ∀ e ∈ reportRunning w pid name p,
      e = .isRunning p ∨ e = .procName p ∨ ∃ l, e = .log l := by
  intro e he
  unfold reportRunning at he
  split at he <;> simp only [List.mem_cons, List.mem_singleton, List.not_mem_nil, or_false] at he
  · rcases he with rfl | rfl
    · exact Or.inl rfl
    · exact Or.inr (Or.inr ⟨_, rfl⟩)
  · rcases he with rfl | rfl | rfl
    · exact Or.inl rfl
    · exact Or.inr (Or.inl rfl)
    · exact Or.inr (Or.inr ⟨_, rfl⟩)
  · rcases he with rfl | rfl
    · exact Or.inl rfl
    · exact Or.inr (Or.inr ⟨_, rfl⟩)

theorem findByName_events (w : World) (name : String) (ps : List Process) :
    ∀ e ∈ (findByName w name ps).1, ∃ p, e = .procName p := by
  induction ps with
  | nil => intro e he; simp [findByName] at he
  | cons proc rest ih =>
    intro e he
    unfold findByName at he
    split_ifs at he
    · simp only [List.mem_singleton] at he
      exact ⟨_, he⟩
    · simp only [List.mem_cons] at he
      rcases he with rfl | he
      · exact ⟨_, rfl⟩
      · exact ih e he

/-- C7: which lookup `checkProcess(pid, name)` makes is decided by its
arguments.  With `pid = 0` and an empty name the trace is the one line that
asks for `--pid` or `--process-name`, so no call is made at all.  With
`pid ≠ 0` the first event is the direct lookup `process.NewProcess` and the
processes are never enumerated, whatever the name.  With `pid = 0` and a
name the first event is the enumeration `process.Processes` and no direct
lookup is made. -/
theorem checkProcess_calls (w : World) (pid : Int) (name : String) :
    (pid = 0 → name = "" →
      checkProcess w pid name
        = [.log "Process monitoring requires either --pid or --process-name flag."]) ∧
    (pid ≠ 0 →
      (checkProcess w pid name).head? = some (.newProcess (toInt32 pid)) ∧
      Event.listProcesses ∉ checkProcess w pid name) ∧
    (pid = 0 → name ≠ "" →
      (checkProcess w pid name).head? = some .listProcesses ∧
      ∀ q, Event.newProcess q ∉ checkProcess w pid name) := by
  refine ⟨?_, ?_, ?_⟩
  · intro hp hn
    rw [checkProcess, if_neg (by simpa using hp), if_neg (by simpa using hn)]
  · intro hp
    rw [checkProcess, if_pos hp]
    split
    · exact ⟨rfl, by simp⟩
    · rename_i p _
      refine ⟨rfl, ?_⟩
      intro hmem
      rcases List.mem_cons.mp hmem with h | h
      · exact absurd h (by simp)
      · rcases reportRunning_events w pid name p _ h with h | h | ⟨l, h⟩ <;> exact absurd h (by simp)
  · intro hp hn
    rw [checkProcess, if_neg (by simpa using hp), if_pos hn]
    split
    · exact ⟨rfl, by simp⟩
    · rename_i processes _
      have hcalls := findByName_events w name processes
      split
      · rename_i calls hfind
        rw [hfind] at hcalls
        refine ⟨rfl, ?_⟩
        intro q hmem
        simp only [List.cons_append, List.mem_cons, List.mem_append, List.mem_singleton,
          reduceCtorEq, false_or, or_false] at hmem
        rcases hmem with h | h
        · obtain ⟨p, hp⟩ := hcalls _ h
          exact absurd hp (by simp)
        · exact absurd h (by simp)
      · rename_i calls p hfind
        rw [hfind] at hcalls
        refine ⟨rfl, ?_⟩
        intro q hmem
        simp only [List.cons_append, List.mem_cons, List.mem_append, reduceCtorEq,
          false_or] at hmem
        rcases hmem with h | h
        · obtain ⟨p, hp⟩ := hcalls _ h
          exact absurd hp (by simp)
        · rcases reportRunning_events w pid name p _ h with h | h | ⟨l, h⟩ <;>
            exact absurd h (by simp)

theorem checkProcess_calls_witness :
    checkProcess downWorld 0 ""
        = [.log "Process monitoring requires either --pid or --process-name flag."] ∧
    ((checkProcess downWorld 7 "sshd").head? = some (.newProcess (toInt32 7)) ∧
      Event.listProcesses ∉ checkProcess downWorld 7 "sshd") ∧
    ((checkProcess downWorld 0 "sshd").head? = some .listProcesses ∧
      ∀ q, Event.newProcess q ∉ checkProcess downWorld 0 "sshd") :=
  ⟨(checkProcess_calls downWorld 0 "").1 rfl rfl,
    (checkProcess_calls downWorld 7 "sshd").2.1 (by decide),
    (checkProcess_calls downWorld 0 "sshd").2.2 rfl (by decide)⟩

theorem reachable_ne_unreachable (host port : String) (hp : port.length ≤ 3) :
    "Host " ++ host ++ " is reachable (checked port " ++ port ++ ")"
      ≠ "Host " ++ host ++ " appears unreachable (checked ports: [80 443])" := by
  intro h
  have hl := congrArg String.length h
  simp only [String.length_append] at hl
  have h1 : " is reachable (checked port ".length = 28 := by decide
  have h2 : " appears unreachable (checked ports: [80 443])".length = 46 := by decide
  have h3 : ")".length = 1 := by decide
  omega

theorem reachable_line_80 (host : String) :
    "Host " ++ host ++ " is reachable (checked port " ++ "80" ++ ")"
      = "Host " ++ host ++ " is reachable (checked port 80)" := by
  simp only [String.append_assoc]; rfl

theorem reachable_line_443 (host : String) :
    "Host " ++ host ++ " is reachable (checked port " ++ "443" ++ ")"
      = "Host " ++ host ++ " is reachable (checked port 443)" := by
  simp only [String.append_assoc]; rfl

theorem unreachable_line (host : String) :
    "Host " ++ host ++ " appears unreachable (checked ports: " ++ "[80 443]" ++ ")"
      = "Host " ++ host ++ " appears unreachable (checked ports: [80 443])" := by
  simp only [String.append_assoc]; rfl

/-- The whole trace of `checkHost` on a host that is not empty. -/
theorem checkHost_eq (w : World) (host : String) (h : host ≠ "") :
    checkHost w host =
      if w.dialTimeout (joinHostPort host "80") then
        [.dial (joinHostPort host "80"), .closeConn,
          .log ("Host " ++ host ++ " is reachable (checked port 80)")]
      else if w.dialTimeout (joinHostPort host "443") then
        [.dial (joinHostPort host "80"), .dial (joinHostPort host "443"), .closeConn,
          .log ("Host " ++ host ++ " is reachable (checked port 443)")]
      else
        [.dial (joinHostPort host "80"), .dial (joinHostPort host "443"),
          .log ("Host " ++ host ++ " appears unreachable (checked ports: [80 443])")] := by
  have hf : fmtStrings ["80", "443"] = "[80 443]" := by decide
  rw [checkHost, if_neg h]
  simp only [dialPorts, hf]
  by_cases h80 : w.dialTimeout (joinHostPort host "80") = true
  · simp [h80, reachable_line_80]
  · by_cases h443 : w.dialTimeout (joinHostPort host "443") = true
    · simp [h80, h443, reachable_line_443]
    · simp [h80, h443, unreachable_line]

/-- C6: on a host that is not empty `checkHost` dials port 80 first and port
443 only when the dial to 80 failed; after the first dial that succeeds it
closes the connection, logs the host as reachable on that port and dials no
more; it logs the host as unreachable, with the ports `[80 443]`, exactly when
both dials failed, after dialling 80 and then 443.  On an empty host it only
logs that `--host` is required. -/
theorem checkHost_dials (w : World) (host : String) (h : host ≠ "") :
    (checkHost w host =
      if w.dialTimeout (joinHostPort host "80") then
        [.dial (joinHostPort host "80"), .closeConn,
          .log ("Host " ++ host ++ " is reachable (checked port 80)")]
      else if w.dialTimeout (joinHostPort host "443") then
        [.dial (joinHostPort host "80"), .dial (joinHostPort host "443"), .closeConn,
          .log ("Host " ++ host ++ " is reachable (checked port 443)")]
      else
        [.dial (joinHostPort host "80"), .dial (joinHostPort host "443"),
          .log ("Host " ++ host ++ " appears unreachable (checked ports: [80 443])")]) ∧
    (Event.log ("Host " ++ host ++ " appears unreachable (checked ports: [80 443])")
        ∈ checkHost w host
      ↔ w.dialTimeout (joinHostPort host "80") = false
        ∧ w.dialTimeout (joinHostPort host "443") = false) ∧
    checkHost w "" = [.log "Host/IP monitoring requires the --host flag to be set."] := by
  refine ⟨checkHost_eq w host h, ?_, rfl⟩
  have n80 := reachable_ne_unreachable host "80" (by decide)
  have n443 := reachable_ne_unreachable host "443" (by decide)
  rw [reachable_line_80] at n80
  rw [reachable_line_443] at n443
  rw [checkHost_eq w host h]
  by_cases h80 : w.dialTimeout (joinHostPort host "80") = true
  · simp [h80, n80.symm]
  · by_cases h443 : w.dialTimeout (joinHostPort host "443") = true
    · simp [h80, h443, n443.symm]
    · simp [h80, h443]

theorem checkHost_dials_witness :
    (checkHost downWorld "example.com" =
      if downWorld.dialTimeout (joinHostPort "example.com" "80") then
        [.dial (joinHostPort "example.com" "80"), .closeConn,
          .log ("Host " ++ "example.com" ++ " is reachable (checked port 80)")]
      else if downWorld.dialTimeout (joinHostPort "example.com" "443") then
        [.dial (joinHostPort "example.com" "80"), .dial (joinHostPort "example.com" "443"),
          .closeConn, .log ("Host " ++ "example.com" ++ " is reachable (checked port 443)")]
      else
        [.dial (joinHostPort "example.com" "80"), .dial (joinHostPort "example.com" "443"),
          .log ("Host " ++ "example.com"
            ++ " appears unreachable (checked ports: [80 443])")]) ∧
    (Event.log ("Host " ++ "example.com" ++ " appears unreachable (checked ports: [80 443])")
        ∈ checkHost downWorld "example.com"
      ↔ downWorld.dialTimeout (joinHostPort "example.com" "80") = false
        ∧ downWorld.dialTimeout (joinHostPort "example.com" "443") = false) ∧
    checkHost downWorld "" = [.log "Host/IP monitoring requires the --host flag to be set."] :=
  checkHost_dials downWorld "example.com" (by decide)


end Automater
